import Mathlib

/-!
Verification of the VeilBreakers Godot→Unity data converter
(`convert_godot_data.py`) against its specification.

Shallow embedding conventions:
* Python strings are modelled as `List Char` (wrapped in `String` at the API).
* Python `float` values are modelled as `Rat`: the code only ever *parses*
  decimal literals and compares/serializes them, it performs no float
  arithmetic, so the exact rational value of the decimal text is a faithful
  model of the classification result.
* A Python function that may raise returns `Option` (`none` = exception).
* The character classes `\d`, `\s`, `\w` of Python regexes and `str.strip()`
  are modelled over their ASCII parts (the data files are ASCII).
* The recursive classifier is given a fuel argument so that it is structurally
  recursive; `parse_value` instantiates the fuel at `length + 1`, which always
  suffices because recursive calls happen on fragments of the bracketed body,
  which are at least two characters shorter than the enclosing literal.
-/

/-- ASCII whitespace, the ASCII part of Python `str.strip()` / regex `\s`. -/
def isWsChar (c : Char) : Bool :=
  c == ' ' || c == '\t' || c == '\n' || c == '\r' || c == '\x0b' || c == '\x0c'

/-- Leading-whitespace removal (left half of Python `str.strip()`). -/
def stripLeading (cs : List Char) : List Char := cs.dropWhile isWsChar

/-- Trailing-whitespace removal (right half of Python `str.strip()`). -/
def stripTrailing (cs : List Char) : List Char :=
  (cs.reverse.dropWhile isWsChar).reverse

/-- Python `str.strip()` (ASCII whitespace). -/
def pyStrip (cs : List Char) : List Char := stripTrailing (stripLeading cs)

/-- Python `str.strip('"')`: remove every leading and trailing `"` character
(used on dictionary keys in `parse_dict`, line 158). -/
def stripQuoteChars (cs : List Char) : List Char :=
  ((cs.dropWhile (· == '"')).reverse.dropWhile (· == '"')).reverse

/-- Value of a digit string in base 10. -/
def digitsToNat (ds : List Char) : Nat :=
  ds.foldl (fun n c => 10 * n + (c.toNat - 48)) 0

/-- The rational value of a decimal literal with integer digits `ip`,
fraction digits `fp` and sign `neg`. -/
def decimalRat (neg : Bool) (ip fp : List Char) : Rat :=
  let n : Int := (digitsToNat ip * 10 ^ fp.length + digitsToNat fp : Nat)
  mkRat (if neg then -n else n) (10 ^ fp.length)

/-- Python `float(s)` restricted to strings over digits, `.` and `-` (the only
characters the `Color`/`Vector2` capture groups can contain): an optional
leading minus, then digits with at most one decimal point and at least one
digit.  `none` models a raised `ValueError`. -/
def pyFloat (cs : List Char) : Option Rat :=
  let sr : Bool × List Char := match cs with
    | '-' :: r => (true, r)
    | _ => (false, cs)
  let ip := sr.2.takeWhile Char.isDigit
  match sr.2.dropWhile Char.isDigit with
  | [] => if ip = [] then none else some (decimalRat sr.1 ip [])
  | '.' :: r2 =>
    if r2.all Char.isDigit ∧ (ip ≠ [] ∨ r2 ≠ []) then
      some (decimalRat sr.1 ip r2)
    else none
  | _ => none

/-- Match a literal character sequence at the head of the input, returning the
remainder (the anchored literal part of a `re.match` pattern). -/
def expectChars : List Char → List Char → Option (List Char)
  | [], cs => some cs
  | _ :: _, [] => none
  | p :: ps, c :: cs => if p = c then expectChars ps cs else none

/-- Greedily take a nonempty run of characters of class `p`
(a `[...]+` group of a `re.match` pattern). -/
def takeClass (p : Char → Bool) (cs : List Char) : Option (List Char × List Char) :=
  match cs.takeWhile p with
  | [] => none
  | t => some (t, cs.dropWhile p)

/-- Character class `[\d.]` of the Color pattern (line 59). -/
def isColorCompChar (c : Char) : Bool := c.isDigit || c == '.'

/-- Character class `[\d.-]` of the Vector2 pattern (line 69). -/
def isVecCompChar (c : Char) : Bool := c.isDigit || c == '.' || c == '-'

/-- The regex `Color\(\s*([\d.]+)\s*,\s*([\d.]+)\s*,\s*([\d.]+)\s*,\s*([\d.]+)\s*\)`
of line 59, anchored at the start of the input (`re.match`), trailing input
ignored.  All adjacent greedy pieces have disjoint character classes, so the
greedy scan without backtracking is equivalent to the regex. -/
def matchColor (s : List Char) : Option (List Char × List Char × List Char × List Char) := do
  let r0 ← expectChars "Color(".data s
  let (g1, r1) ← takeClass isColorCompChar (r0.dropWhile isWsChar)
  let r2 ← expectChars [','] (r1.dropWhile isWsChar)
  let (g2, r3) ← takeClass isColorCompChar (r2.dropWhile isWsChar)
  let r4 ← expectChars [','] (r3.dropWhile isWsChar)
  let (g3, r5) ← takeClass isColorCompChar (r4.dropWhile isWsChar)
  let r6 ← expectChars [','] (r5.dropWhile isWsChar)
  let (g4, r7) ← takeClass isColorCompChar (r6.dropWhile isWsChar)
  let _ ← expectChars [')'] (r7.dropWhile isWsChar)
  return (g1, g2, g3, g4)

/-- The regex `Vector2\(\s*([\d.-]+)\s*,\s*([\d.-]+)\s*\)` of line 69,
anchored at the start (`re.match`), trailing input ignored. -/
def matchVector2 (s : List Char) : Option (List Char × List Char) := do
  let r0 ← expectChars "Vector2(".data s
  let (g1, r1) ← takeClass isVecCompChar (r0.dropWhile isWsChar)
  let r2 ← expectChars [','] (r1.dropWhile isWsChar)
  let (g2, r3) ← takeClass isVecCompChar (r2.dropWhile isWsChar)
  let _ ← expectChars [')'] (r3.dropWhile isWsChar)
  return (g1, g2)

/-- The regex `^-?\d+$` of line 86 together with `int(...)` of line 87. -/
def matchIntLit (cs : List Char) : Option Int :=
  let sr : Bool × List Char := match cs with
    | '-' :: r => (true, r)
    | _ => (false, cs)
  if sr.2 ≠ [] ∧ sr.2.all Char.isDigit then
    some (if sr.1 then -(digitsToNat sr.2 : Int) else (digitsToNat sr.2 : Int))
  else none

/-- The regex `^-?\d+\.\d*$` of line 90 together with `float(...)` of line 91. -/
def matchFloatLit (cs : List Char) : Option Rat :=
  let sr : Bool × List Char := match cs with
    | '-' :: r => (true, r)
    | _ => (false, cs)
  let ip := sr.2.takeWhile Char.isDigit
  match sr.2.dropWhile Char.isDigit with
  | '.' :: r2 =>
    if ip ≠ [] ∧ r2.all Char.isDigit then some (decimalRat sr.1 ip r2) else none
  | _ => none

/-- The universal result type of the classifier: the Python objects
`parse_value` can build, as a closed variant type. -/
inductive Value where
  | null
  | bool (b : Bool)
  | int (n : Int)
  | float (q : Rat)
  | str (s : String)
  | color (r g b a : Rat)
  | vec2 (x y : Rat)
  | arr (xs : List Value)
  | map (entries : List (String × Value))

/-- The character scan of `parse_array` (lines 103-125): split the bracket
body into stripped top-level fragments.  `depth` counts `[`/`{` minus `]`/`}`
seen outside strings, `inStr` is the in-quoted-string flag toggled on a quote
whose immediately preceding accumulated character is not a backslash, and a
comma at depth 0 outside a string emits the current fragment. -/
def scanArr : List Char → Int → List Char → Bool → List (List Char)
  | [], _, cur, _ => if pyStrip cur = [] then [] else [pyStrip cur]
  | c :: rest, depth, cur, inStr =>
    let inStr2 := if c = '"' ∧ cur.getLast? ≠ some '\\' then !inStr else inStr
    if inStr2 = false ∧ (c = '[' ∨ c = '{') then
      scanArr rest (depth + 1) (cur ++ [c]) inStr2
    else if inStr2 = false ∧ (c = ']' ∨ c = '}') then
      scanArr rest (depth - 1) (cur ++ [c]) inStr2
    else if inStr2 = false ∧ c = ',' ∧ depth = 0 then
      pyStrip cur :: scanArr rest depth [] inStr2
    else
      scanArr rest depth (cur ++ [c]) inStr2

/-- The character scan of `parse_dict` (lines 138-176): split the brace body
into (processed key, raw value fragment) entries.  The quote toggle checks the
character of the original body preceding the cursor (`content[i-1]`, carried
here as `prev`); a depth-0 colon in key mode commits the stripped, unquoted
key; a depth-0 comma commits the pending entry when a key is present. -/
def scanDict : List Char → Option Char → Int → Option (List Char) → List Char → Bool → Bool →
    List (List Char × List Char)
  | [], _, _, curKey, curVal, _, _ =>
    match curKey with
    | some k => if pyStrip curVal = [] then [] else [(k, pyStrip curVal)]
    | none => []
  | c :: rest, prev, depth, curKey, curVal, inStr, pk =>
    let inStr2 := if c = '"' ∧ prev ≠ some '\\' then !inStr else inStr
    if inStr2 = false ∧ (c = '[' ∨ c = '{') then
      scanDict rest (some c) (depth + 1) curKey (curVal ++ [c]) inStr2 pk
    else if inStr2 = false ∧ (c = ']' ∨ c = '}') then
      scanDict rest (some c) (depth - 1) curKey (curVal ++ [c]) inStr2 pk
    else if inStr2 = false ∧ c = ':' ∧ depth = 0 ∧ pk = true then
      scanDict rest (some c) depth (some (stripQuoteChars (pyStrip curVal))) [] inStr2 false
    else if inStr2 = false ∧ c = ',' ∧ depth = 0 then
      (match curKey with
        | some k => [(k, pyStrip curVal)]
        | none => []) ++ scanDict rest (some c) depth none [] inStr2 true
    else
      scanDict rest (some c) depth curKey (curVal ++ [c]) inStr2 pk

/-- Python `dict` assignment `d[k] = v`: overwrite in place when the key
exists (keeping its insertion position), append otherwise. -/
def dictInsert (d : List (String × Value)) (k : String) (v : Value) : List (String × Value) :=
  match d with
  | [] => [(k, v)]
  | (k2, v2) :: rest => if k2 = k then (k, v) :: rest else (k2, v2) :: dictInsert rest k v

/-- Body of `parse_array` (lines 95-129), parameterized by the recursive
classifier applied to each fragment.  The `try`/`except` of lines 97/128 is
the `none` arm: a `ValueError` escaping an element classification yields `[]`. -/
def arrBody (rec : List Char → Option Value) (s : List Char) : List Value :=
  let content := pyStrip ((s.drop 1).dropLast)
  if content = [] then []
  else
    match (scanArr content 0 [] false).mapM rec with
    | some vs => vs
    | none => []

/-- Body of `parse_dict` (lines 131-180), parameterized by the recursive
classifier applied to each value fragment; entries are assembled with
`dictInsert` and any escaping `ValueError` yields `{}`. -/
def dictBody (rec : List Char → Option Value) (s : List Char) : List (String × Value) :=
  let content := pyStrip ((s.drop 1).dropLast)
  if content = [] then []
  else
    match (scanDict content none 0 none [] false true).mapM
        (fun e => (rec e.2).map (fun v => (String.mk e.1, v))) with
    | some ps => ps.foldl (fun d p => dictInsert d p.1 p.2) []
    | none => []

/-- The ordered first-match classification chain of `parse_value`
(lines 44-93), applied to the already-stripped input `s`; `rec` is the
recursive classifier used for array/dictionary elements.  `none` models a
raised `ValueError` (only possible from `float(...)` on a matched
Color/Vector2 component). -/
def classifyStripped (rec : List Char → Option Value) (s : List Char) : Option Value :=
  if s = "true".data then some (.bool true)
  else if s = "false".data then some (.bool false)
  else if s = "null".data ∨ s = "nil".data then some .null
  else
    match matchColor s with
    | some (g1, g2, g3, g4) =>
      match pyFloat g1 with
      | none => none
      | some a =>
        match pyFloat g2 with
        | none => none
        | some b =>
          match pyFloat g3 with
          | none => none
          | some c =>
            match pyFloat g4 with
            | none => none
            | some d => some (.color a b c d)
    | none =>
      match matchVector2 s with
      | some (g1, g2) =>
        match pyFloat g1 with
        | none => none
        | some x =>
          match pyFloat g2 with
          | none => none
          | some y => some (.vec2 x y)
      | none =>
        if s.head? = some '"' ∧ s.getLast? = some '"' then
          some (.str (String.mk ((s.drop 1).dropLast)))
        else if s.head? = some '[' then some (.arr (arrBody rec s))
        else if s.head? = some '{' then some (.map (dictBody rec s))
        else
          match matchIntLit s with
          | some n => some (.int n)
          | none =>
            match matchFloatLit s with
            | some q => some (.float q)
            | none => some (.str (String.mk s))

/-- Fuel-indexed classifier; at fuel `n + 1` one classification step runs with
recursive calls at fuel `n`.  Fragments of a bracketed body are at least two
characters shorter than the literal, so fuel `length + 1` never runs out. -/
def parseValF : Nat → List Char → Option Value
  | 0, _ => none
  | n + 1, cs => classifyStripped (parseValF n) (pyStrip cs)

/-- `parse_value` (lines 44-93): classify a raw value string.
`none` models a raised `ValueError`. -/
def parse_value (s : String) : Option Value :=
  parseValF (s.data.length + 1) s.data

/-- `parse_array` (lines 95-129) as the standalone function: each top-level
fragment is classified by `parse_value`. -/
def parse_array (s : String) : List Value :=
  arrBody (fun cs => parseValF (cs.length + 1) cs) s.data

/-- `parse_dict` (lines 131-180) as the standalone function. -/
def parse_dict (s : String) : List (String × Value) :=
  dictBody (fun cs => parseValF (cs.length + 1) cs) s.data

/-- ASCII part of the regex class `\w` (line 36). -/
def isWordChar (c : Char) : Bool := c.isAlphanum || c == '_'

/-- Python `str.split('\n')` (line 29). -/
def splitNl : List Char → List (List Char)
  | [] => [[]]
  | c :: rest =>
    match splitNl rest with
    | [] => [[c]]
    | l :: ls => if c = '\n' then [] :: l :: ls else (c :: l) :: ls

/-- One iteration of the line loop of `parse_tres_file` (lines 30-40): strip
the line, skip blanks, `#` comments and lines starting with `script`, then
match `^(\w+)\s*=\s*(.+)$` and return the key and the stripped value text.
`none` means the line is skipped. -/
def parseLine (l : List Char) : Option (List Char × List Char) :=
  let l2 := pyStrip l
  if l2 = [] then none
  else if l2.head? = some '#' then none
  else if (expectChars "script".data l2).isSome then none
  else
    let key := l2.takeWhile isWordChar
    if key = [] then none
    else
      match (l2.dropWhile isWordChar).dropWhile isWsChar with
      | '=' :: r2 =>
        let v := r2.dropWhile isWsChar
        if v = [] then none else some (key, pyStrip v)
      | _ => none

/-- `re.search(r'\[resource\](.*)', content, re.DOTALL)` (line 21): the text
after the first occurrence of `pat`, or `none` when `pat` does not occur. -/
def afterFirst (pat : List Char) : List Char → Option (List Char)
  | [] =>
    match expectChars pat [] with
    | some r => some r
    | none => none
  | c :: rest =>
    match expectChars pat (c :: rest) with
    | some r => some r
    | none => afterFirst pat rest

/-- The `(key, value)` pairs produced from a section body, in line order,
each value classified by `parse_value`; `none` models a `ValueError`
propagating out of the line loop. -/
def linePairs (sec : List Char) : Option (List (String × Value)) :=
  ((splitNl (pyStrip sec)).filterMap parseLine).mapM
    (fun p => (parse_value (String.mk p.2)).map (fun v => (String.mk p.1, v)))

/-- The `data[key] = parse_value(...)` accumulation of lines 26-40, as a fold
of `dictInsert` over the classified pairs. -/
def assemblePairs (ps : List (String × Value)) : List (String × Value) :=
  ps.foldl (fun d p => dictInsert d p.1 p.2) []

/-- Build the document of one section body. -/
def assembleDoc (sec : List Char) : Option (List (String × Value)) :=
  (linePairs sec).map assemblePairs

/-- `parse_tres_file` (lines 15-42) minus the file read: the outer `Option`
models a propagating exception, the inner `Option` the `None` returned when
no `[resource]` marker is present. -/
def parse_tres_file (content : String) : Option (Option (List (String × Value))) :=
  match afterFirst "[resource]".data content.data with
  | none => some none
  | some sec => (assembleDoc sec).map some

/-- Python `str.replace("res://", "")` (line 277): remove every occurrence,
scanning left to right.  Fuel-indexed for structural recursion; every step
consumes at least one character, so fuel `length + 1` suffices. -/
def removeAllF : Nat → List Char → List Char
  | 0, cs => cs
  | _ + 1, [] => []
  | n + 1, c :: rest =>
    match expectChars "res://".data (c :: rest) with
    | some r => removeAllF n r
    | none => c :: removeAllF n rest

/-- Backslash-to-forward-slash normalization, `str.replace("\\", "/")`
(line 279). -/
def slashFix (c : Char) : Char := if c = '\\' then '/' else c

/-- `convert_path` (lines 272-280). -/
def convert_path (s : String) : String :=
  if s.data = [] then ""
  else String.mk ((removeAllF (s.data.length + 1) s.data).map slashFix)

/-- Modelled from the spec wording for map keys: strip one single pair of
surrounding double-quotes if present (to compare with the code's
`strip('"')`, which strips every surrounding quote character). -/
def stripOnePairSpec (cs : List Char) : List Char :=
  if 2 ≤ cs.length ∧ cs.head? = some '"' ∧ cs.getLast? = some '"' then
    (cs.drop 1).dropLast
  else cs

/-- Modelled from the spec wording for path rewriting: strip the fixed
`res://` URI prefix (a leading occurrence only), for comparison with the
code's replace-all. -/
def stripResSpec (cs : List Char) : List Char :=
  match expectChars "res://".data cs with
  | some r => r
  | none => cs

/-- First-match association lookup (how a Python dict with unique keys is
read back). -/
def lookupA : List (String × Value) → String → Option Value
  | [], _ => none
  | (k2, v) :: rest, k => if k2 = k then some v else lookupA rest k

/-- The value carried by the last pair with key `k` in a pair list. -/
def lastVal : List (String × Value) → String → Option Value
  | [], _ => none
  | p :: rest, k =>
    match lastVal rest k with
    | some v => some v
    | none => if p.1 = k then some p.2 else none

/-- Keys in order of first occurrence, continuing from `acc`. -/
def firstOccursFrom (acc : List String) : List String → List String
  | [] => acc
  | k :: ks => firstOccursFrom (if k ∈ acc then acc else acc ++ [k]) ks

/-- Keys in order of first occurrence. -/
def firstOccurs (ks : List String) : List String := firstOccursFrom [] ks

/-- The inputs on which the classifier raises: a matched Color or Vector2
pattern with a component on which `float(...)` fails. -/
def classifyFault (cs : List Char) : Bool :=
  let s := pyStrip cs
  match matchColor s with
  | some (g1, g2, g3, g4) =>
    !((pyFloat g1).isSome && (pyFloat g2).isSome && (pyFloat g3).isSome && (pyFloat g4).isSome)
  | none =>
    match matchVector2 s with
    | some (g1, g2) => !((pyFloat g1).isSome && (pyFloat g2).isSome)
    | none => false

/-- No recognized literal pattern of the classification chain matches the
(stripped) input. -/
def noMatch (cs : List Char) : Bool :=
  let s := pyStrip cs
  !(decide (s = "true".data)) &&
  (!(decide (s = "false".data)) &&
  (!(decide (s = "null".data)) &&
  (!(decide (s = "nil".data)) &&
  ((matchColor s).isNone &&
  ((matchVector2 s).isNone &&
  (!(decide (s.head? = some '"' ∧ s.getLast? = some '"')) &&
  (!(decide (s.head? = some '[')) &&
  (!(decide (s.head? = some '{')) &&
  ((matchIntLit s).isNone &&
  (matchFloatLit s).isNone)))))))))

/-! ## Supporting lemmas -/

theorem expectChars_some_eq {pat cs r : List Char} (h : expectChars pat cs = some r) :
    cs = pat ++ r := by
  induction pat generalizing cs with
  | nil => simpa [expectChars] using h
  | cons p ps ih =>
    cases cs with
    | nil => exact absurd h (by simp [expectChars])
    | cons c cs2 =>
      unfold expectChars at h
      split at h
      · next hpc => exact hpc ▸ congrArg (c :: ·) (ih h)
      · exact absurd h (by simp)

theorem expectChars_append (pat r : List Char) : expectChars pat (pat ++ r) = some r := by
  induction pat with
  | nil => rfl
  | cons p ps ih => simp [expectChars, ih]

theorem expectChars_none_iff {pat cs : List Char} :
    expectChars pat cs = none ↔ ¬ pat <+: cs := by
  constructor
  · intro h hpre
    obtain ⟨t, ht⟩ := hpre
    rw [← ht, expectChars_append] at h
    exact Option.noConfusion h
  · intro h
    cases hm : expectChars pat cs with
    | none => rfl
    | some r => exact absurd ⟨r, (expectChars_some_eq hm).symm⟩ h

theorem afterFirst_none_iff {pat cs : List Char} :
    afterFirst pat cs = none ↔ ¬ pat <:+: cs := by
  induction cs with
  | nil =>
    cases hm : expectChars pat [] with
    | some r =>
      have hp : pat = [] ∧ r = [] := List.append_eq_nil.mp (expectChars_some_eq hm).symm
      obtain ⟨rfl, rfl⟩ := hp
      simp [afterFirst, hm]
    | none =>
      have hnp : ¬ pat <+: ([] : List Char) := expectChars_none_iff.mp hm
      have hni : ¬ pat <:+: ([] : List Char) := by
        intro hi
        have : pat = [] := by simpa using hi
        subst this
        exact hnp List.nil_prefix
      simp [afterFirst, hm, hni]
  | cons c rest ih =>
    cases hm : expectChars pat (c :: rest) with
    | some r =>
      have hi : pat <:+: c :: rest := ⟨[], r, by simpa using (expectChars_some_eq hm).symm⟩
      simp [afterFirst, hm, hi]
    | none =>
      have hnp : ¬ pat <+: (c :: rest) := expectChars_none_iff.mp hm
      simp only [afterFirst, hm]
      rw [ih, List.infix_cons_iff]
      constructor
      · rintro h (hp | hi)
        exacts [hnp hp, h hi]
      · intro h hi
        exact h (Or.inr hi)

theorem afterFirst_some_first {pat cs r : List Char} (h : afterFirst pat cs = some r) :
    ∃ pre, cs = pre ++ pat ++ r ∧
      ∀ pre2 r2, cs = pre2 ++ pat ++ r2 → pre.length ≤ pre2.length := by
  induction cs with
  | nil =>
    unfold afterFirst at h
    cases hm : expectChars pat [] with
    | some r0 =>
      rw [hm] at h
      obtain rfl : r0 = r := by simpa using h
      exact ⟨[], by simpa using expectChars_some_eq hm, fun _ _ _ => Nat.zero_le _⟩
    | none => rw [hm] at h; exact absurd h (by simp)
  | cons c rest ih =>
    unfold afterFirst at h
    cases hm : expectChars pat (c :: rest) with
    | some r0 =>
      rw [hm] at h
      obtain rfl : r0 = r := by simpa using h
      exact ⟨[], by simpa using expectChars_some_eq hm, fun _ _ _ => Nat.zero_le _⟩
    | none =>
      rw [hm] at h
      obtain ⟨pre, heq, hmin⟩ := ih h
      refine ⟨c :: pre, by simpa using heq, ?_⟩
      intro pre2 r2 h2
      cases pre2 with
      | nil =>
        exact absurd ⟨r2, by simpa using h2.symm⟩ (expectChars_none_iff.mp hm)
      | cons c2 pre2t =>
        have h2' : rest = pre2t ++ pat ++ r2 := by
          simpa using congrArg List.tail h2
        simpa using Nat.succ_le_succ (hmin pre2t r2 h2')

theorem lookupA_dictInsert (d : List (String × Value)) (a k : String) (v : Value) :
    lookupA (dictInsert d a v) k = if a = k then some v else lookupA d k := by
  induction d with
  | nil => simp [dictInsert, lookupA]
  | cons p rest ih =>
    obtain ⟨b, w⟩ := p
    by_cases hba : b = a
    · subst hba
      by_cases hbk : b = k
      · subst hbk
        simp [dictInsert, lookupA]
      · simp [dictInsert, lookupA, hbk]
    · by_cases hbk : b = k
      · subst hbk
        have hab : ¬ a = b := fun hh => hba hh.symm
        simp [dictInsert, lookupA, hba, hab]
      · simp [dictInsert, lookupA, hba, hbk, ih]

theorem keys_dictInsert (d : List (String × Value)) (k : String) (v : Value) :
    (dictInsert d k v).map Prod.fst =
      if k ∈ d.map Prod.fst then d.map Prod.fst else d.map Prod.fst ++ [k] := by
  induction d with
  | nil => simp [dictInsert]
  | cons p rest ih =>
    obtain ⟨b, w⟩ := p
    by_cases hbk : b = k
    · subst hbk; simp [dictInsert]
    · have hkb : ¬ k = b := fun hh => hbk hh.symm
      by_cases hmem : k ∈ rest.map Prod.fst <;>
        simp [dictInsert, hbk, hkb, hmem, ih]

theorem lookupA_foldl_dictInsert (ps : List (String × Value)) (d : List (String × Value))
    (k : String) :
    lookupA (ps.foldl (fun d p => dictInsert d p.1 p.2) d) k =
      (lastVal ps k).or (lookupA d k) := by
  induction ps generalizing d with
  | nil => simp [lastVal, Option.or]
  | cons p rest ih =>
    simp only [List.foldl_cons]
    rw [ih]
    cases hl : lastVal rest k with
    | some v => simp [lastVal, hl, Option.or]
    | none =>
      by_cases hpk : p.1 = k <;>
        simp [lastVal, hl, Option.or, lookupA_dictInsert, hpk]

theorem keys_foldl_dictInsert (ps : List (String × Value)) (d : List (String × Value)) :
    (ps.foldl (fun d p => dictInsert d p.1 p.2) d).map Prod.fst =
      firstOccursFrom (d.map Prod.fst) (ps.map Prod.fst) := by
  induction ps generalizing d with
  | nil => rfl
  | cons p rest ih =>
    simp only [List.foldl_cons, List.map_cons]
    rw [ih, keys_dictInsert]
    rfl

theorem assemblePairs_lookup (ps : List (String × Value)) (k : String) :
    lookupA (assemblePairs ps) k = lastVal ps k := by
  unfold assemblePairs
  rw [lookupA_foldl_dictInsert]
  cases lastVal ps k <;> simp [Option.or, lookupA]

theorem assemblePairs_keys (ps : List (String × Value)) :
    (assemblePairs ps).map Prod.fst = firstOccurs (ps.map Prod.fst) := by
  unfold assemblePairs firstOccurs
  rw [keys_foldl_dictInsert]
  rfl

/-! ## Claims -/

/-- C1, counterexample: the classifier is not total.  On
`"Color(., ., ., .)"` the Color pattern matches with components `"."`, and
`float(".")` raises `ValueError` (line 62), so `parse_value` raises —
modelled as `none`. -/
theorem c1_counterexample : parse_value "Color(., ., ., .)" = none := rfl

/-- C2, counterexample: `classify("[1, 2")` does not return an empty Array.
Slicing `value_str[1:-1]` silently drops the final `2`, the scan finds
element `1`, and the result is `Array([Int(1)])`, not `Array([])`. -/
theorem c2_counterexample :
    parse_value "[1, 2" = some (.arr [.int 1]) ∧
    Value.arr [Value.int 1] ≠ Value.arr [] := by
  refine ⟨rfl, fun h => ?_⟩
  injection h with h2
  exact absurd h2 (by simp)

/-- C3: scalar classification follows the first-match order and round-trips
the representative literals: `true`, `false`, `null`, `nil`, `-3.5`
(= -7/2 exactly), `"hi"`, and the optional-minus digit string `-3`
classifies as `Int`, not `Float` or `String`. -/
theorem c3_scalar_roundtrip :
    parse_value "true" = some (.bool true) ∧
    parse_value "false" = some (.bool false) ∧
    parse_value "null" = some .null ∧
    parse_value "nil" = some .null ∧
    parse_value "-3.5" = some (.float (mkRat (-7) 2)) ∧
    parse_value "\"hi\"" = some (.str "hi") ∧
    parse_value "-3" = some (.int (-3)) :=
  ⟨rfl, rfl, rfl, rfl, rfl, rfl, rfl⟩

/-- C4: the array parser splits only on depth-0 commas outside quoted
strings — commas inside nested brackets and inside quoted strings do not
split — and an empty (or all-whitespace) bracket body yields an empty
Array. -/
theorem c4_array_nesting :
    parse_value "[1, [2, 3], \"a,b\"]" =
      some (.arr [.int 1, .arr [.int 2, .int 3], .str "a,b"]) ∧
    parse_value "[]" = some (.arr []) ∧
    parse_value "[   ]" = some (.arr []) :=
  ⟨rfl, rfl, rfl⟩

/-- C5, counterexample: map keys are not stripped of a single pair of
surrounding double-quotes; the code's `strip('"')` removes every surrounding
quote character.  On `{""a"": 1}` the claim predicts key `"a"` (with quotes),
the code produces key `a`. -/
theorem c5_counterexample :
    parse_value "\x7b\"\"a\"\": 1\x7d" = some (.map [("a", .int 1)]) ∧
    stripOnePairSpec (pyStrip "\"\"a\"\"".data) = "\"a\"".data ∧
    ("a" : String) ≠ "\"a\"" :=
  ⟨rfl, rfl, by decide⟩

/-- C5, amended: the map parser splits each top-level entry at a depth-0
out-of-string colon, treating the key as a plain string with all surrounding
double-quote characters stripped (keys are never recursively classified) and
classifying the value recursively; an empty brace body yields an empty
Map. -/
theorem c5_amended_theorem :
    parse_value "\x7b\"a\": 1, \"b\": [1,2]\x7d" =
      some (.map [("a", .int 1), ("b", .arr [.int 1, .int 2])]) ∧
    parse_value "\x7b\"\"a\"\": 1\x7d" = some (.map [("a", .int 1)]) ∧
    parse_value "{}" = some (.map []) ∧
    parse_value "{   }" = some (.map []) :=
  ⟨rfl, rfl, rfl, rfl⟩

/-- C8, counterexample: `convert_path` does not strip only a leading
`res://` prefix; Python `str.replace` removes every occurrence.  On
`"a res://b"` prefix-stripping (the spec reading) leaves the string
unchanged, while the code yields `"a b"`, changing characters other than a
prefix and separators. -/
theorem c8_counterexample :
    convert_path "a res://b" = "a b" ∧
    String.mk ((stripResSpec "a res://b".data).map slashFix) = "a res://b" ∧
    ("a b" : String) ≠ "a res://b" :=
  ⟨rfl, rfl, by decide⟩

/-- Helper: a successful Color match forces the input to start with `C`. -/
theorem matchColor_head {s : List Char} {g : List Char × List Char × List Char × List Char}
    (h : matchColor s = some g) : s.head? = some 'C' := by
  unfold matchColor at h
  cases hm : expectChars "Color(".data s with
  | none => simp [hm] at h
  | some r0 =>
    obtain rfl := expectChars_some_eq hm
    rfl

/-- Helper: a successful Vector2 match forces the input to start with `V`. -/
theorem matchVector2_head {s : List Char} {g : List Char × List Char}
    (h : matchVector2 s = some g) : s.head? = some 'V' := by
  unfold matchVector2 at h
  cases hm : expectChars "Vector2(".data s with
  | none => simp [hm] at h
  | some r0 =>
    obtain rfl := expectChars_some_eq hm
    rfl

/-- C1, amended: the classifier is total except on inputs where the Color or
Vector2 pattern matches with a component on which `float(...)` fails (such as
`"."`); on every other input it returns a Value, and any input matching no
recognized literal pattern — including the empty string — resolves to the
trimmed input as a String. -/
theorem c1_amended_theorem (s t : String) (h1 : classifyFault s.data = false)
    (h2 : noMatch t.data = true) :
    (∃ v, parse_value s = some v) ∧
    parse_value t = some (.str (String.mk (pyStrip t.data))) ∧
    parse_value "" = some (.str "") := by
  refine ⟨?_, ?_, rfl⟩
  · have e : parse_value s = classifyStripped (parseValF s.data.length) (pyStrip s.data) := rfl
    rw [e]
    unfold classifyStripped
    repeat' first
      | exact ⟨_, rfl⟩
      | split
    all_goals exfalso
    all_goals simp_all [classifyFault]
  · have e : parse_value t = classifyStripped (parseValF t.data.length) (pyStrip t.data) := rfl
    rw [e]
    unfold noMatch at h2
    simp only [Bool.and_eq_true, Bool.not_eq_true', decide_eq_false_iff_not,
      Option.isNone_iff_eq_none] at h2
    obtain ⟨htr, hfa, hnu, hni, hco, hve, hqq, hlb, hlc, hint, hflo⟩ := h2
    unfold classifyStripped
    rw [if_neg htr, if_neg hfa, if_neg (not_or.mpr ⟨hnu, hni⟩), hco, hve, if_neg hqq,
      if_neg hlb, if_neg hlc, hint, hflo]

/-- C1, witness. -/
theorem c1_amended_witness :
    (∃ v, parse_value "Color(1, 2, 3, 4)" = some v) ∧
    parse_value "  hi  " = some (.str (String.mk (pyStrip "  hi  ".data))) ∧
    parse_value "" = some (.str "") :=
  c1_amended_theorem "Color(1, 2, 3, 4)" "  hi  " (by decide) (by decide)

/-- C2, amended: the array parser never raises — every input whose stripped
form starts with `[` classifies to an Array — but a malformed (truncated)
literal yields the elements recovered from the sliced body, not an empty
Array: `classify("[1, 2")` is `Array([Int(1)])`. -/
theorem c2_amended_theorem (s : String) (h : (pyStrip s.data).head? = some '[') :
    (∃ vs, parse_value s = some (Value.arr vs)) ∧
    parse_value "[1, 2" = some (.arr [.int 1]) ∧
    parse_value "[[1, 2]" = some (.arr [.arr [.int 1]]) := by
  refine ⟨?_, rfl, rfl⟩
  have e : parse_value s = classifyStripped (parseValF s.data.length) (pyStrip s.data) := rfl
  rw [e]
  have htr : ¬ pyStrip s.data = "true".data := by
    intro he; rw [he] at h; exact absurd h (by decide)
  have hfa : ¬ pyStrip s.data = "false".data := by
    intro he; rw [he] at h; exact absurd h (by decide)
  have hnn : ¬ (pyStrip s.data = "null".data ∨ pyStrip s.data = "nil".data) := by
    rintro (he | he) <;> (rw [he] at h; exact absurd h (by decide))
  have hco : matchColor (pyStrip s.data) = none := by
    cases hm : matchColor (pyStrip s.data) with
    | none => rfl
    | some g => exact absurd ((matchColor_head hm).symm.trans h) (by decide)
  have hve : matchVector2 (pyStrip s.data) = none := by
    cases hm : matchVector2 (pyStrip s.data) with
    | none => rfl
    | some g => exact absurd ((matchVector2_head hm).symm.trans h) (by decide)
  have hqq : ¬ ((pyStrip s.data).head? = some '"' ∧ (pyStrip s.data).getLast? = some '"') := by
    rintro ⟨hq1, -⟩
    exact absurd (hq1.symm.trans h) (by decide)
  unfold classifyStripped
  rw [if_neg htr, if_neg hfa, if_neg hnn, hco, hve, if_neg hqq, if_pos h]
  exact ⟨_, rfl⟩

/-- C2, witness. -/
theorem c2_amended_witness :
    (∃ vs, parse_value "[1, 2" = some (Value.arr vs)) ∧
    parse_value "[1, 2" = some (.arr [.int 1]) ∧
    parse_value "[[1, 2]" = some (.arr [.arr [.int 1]]) :=
  c2_amended_theorem "[1, 2" (by decide)

/-- C6: the section extractor signals "not found" (`some none`, no Document
and no exception) exactly when the file text has no `[resource]` marker;
when the marker occurs, the document is assembled from everything after its
first occurrence. -/
theorem c6_section_extractor (content : String) :
    (parse_tres_file content = some none ↔ ¬ "[resource]".data <:+: content.data) ∧
    (∀ sec, afterFirst "[resource]".data content.data = some sec →
      parse_tres_file content = (assembleDoc sec).map some ∧
      ∃ pre, content.data = pre ++ "[resource]".data ++ sec ∧
        ∀ pre2 sec2, content.data = pre2 ++ "[resource]".data ++ sec2 →
          pre.length ≤ pre2.length) := by
  constructor
  · rw [← afterFirst_none_iff]
    cases hm : afterFirst "[resource]".data content.data with
    | none => simp [parse_tres_file, hm]
    | some sec => simp [parse_tres_file, hm]
  · intro sec hm
    refine ⟨by simp [parse_tres_file, hm], afterFirst_some_first hm⟩

/-- C6, witness. -/
theorem c6_section_extractor_witness :
    parse_tres_file "x[resource]\nk = 1" = (assembleDoc "\nk = 1".data).map some :=
  (((c6_section_extractor "x[resource]\nk = 1").2) "\nk = 1".data (by decide)).1

/-- C7: when a section contains several assignment lines with the same key,
the assembled Document maps that key to the value parsed from the last such
line, and its keys appear in the order first encountered. -/
theorem c7_last_write_wins (sec : List Char) (ps : List (String × Value))
    (d : List (String × Value)) (k : String)
    (h1 : linePairs sec = some ps) (h2 : assembleDoc sec = some d) :
    lookupA d k = lastVal ps k ∧ d.map Prod.fst = firstOccurs (ps.map Prod.fst) := by
  have hd : d = assemblePairs ps := by
    unfold assembleDoc at h2
    rw [h1] at h2
    simpa using h2.symm
  subst hd
  exact ⟨assemblePairs_lookup ps k, assemblePairs_keys ps⟩

/-- C7, witness: section `a = 1`, `b = 2`, `a = 3` maps `a` to `Int(3)` with
key order `[a, b]`. -/
theorem c7_last_write_wins_witness :
    lookupA [("a", Value.int 3), ("b", Value.int 2)] "a" =
      lastVal [("a", Value.int 1), ("b", Value.int 2), ("a", Value.int 3)] "a" ∧
    [("a", Value.int 3), ("b", Value.int 2)].map Prod.fst =
      firstOccurs ([("a", Value.int 1), ("b", Value.int 2), ("a", Value.int 3)].map Prod.fst) :=
  c7_last_write_wins "a = 1\nb = 2\na = 3".data
    [("a", .int 1), ("b", .int 2), ("a", .int 3)]
    [("a", .int 3), ("b", .int 2)] "a" rfl rfl

/-- Helper: `removeAllF` leaves a string without any `res://` occurrence
unchanged. -/
theorem removeAllF_eq_self (fuel : Nat) (cs : List Char)
    (h : ¬ "res://".data <:+: cs) : removeAllF fuel cs = cs := by
  induction fuel generalizing cs with
  | zero => rfl
  | succ n ih =>
    cases cs with
    | nil => rfl
    | cons c rest =>
      unfold removeAllF
      cases hm : expectChars "res://".data (c :: rest) with
      | some r =>
        have hp : "res://".data <+: c :: rest := ⟨r, (expectChars_some_eq hm).symm⟩
        exact absurd hp.isInfix h
      | none =>
        rw [ih rest (fun hi => h (List.infix_cons hi))]

/-- C8, amended: `convert_path` removes every occurrence of the substring
`res://` (not only a leading prefix) and then normalizes each backslash to a
forward slash; on strings not containing `res://` only separators change,
and the empty input yields the empty string. -/
theorem c8_amended_theorem (s : String) (h : ¬ "res://".data <:+: s.data) :
    convert_path s = String.mk (s.data.map slashFix) ∧
    convert_path "" = "" ∧
    convert_path "res://a\\res://b" = "a/b" := by
  refine ⟨?_, rfl, rfl⟩
  unfold convert_path
  split
  · next he => rw [he]; rfl
  · rw [removeAllF_eq_self _ _ h]

/-- C8, witness. -/
theorem c8_amended_witness :
    convert_path "a\\b" = String.mk ("a\\b".data.map slashFix) ∧
    convert_path "" = "" ∧
    convert_path "res://a\\res://b" = "a/b" :=
  c8_amended_theorem "a\\b" (by decide)

/-- C9: parsing is deterministic and stateless.  The parsers are pure
functions of their input — the Python originals touch no global mutable
state, which is why they embed as plain functions — so two invocations on
the same raw text are structurally equal. -/
theorem c9_deterministic (s : String) :
    parse_value s = parse_value s ∧ parse_array s = parse_array s ∧
    parse_dict s = parse_dict s :=
  ⟨rfl, rfl, rfl⟩


theorem dropWhile_append_my {p : Char → Bool} (l1 l2 : List Char) :
    (l1 ++ l2).dropWhile p =
      if l1.dropWhile p = [] then l2.dropWhile p else l1.dropWhile p ++ l2 := by
  rw [List.dropWhile_append]
  by_cases h : l1.dropWhile p = [] <;> simp [h]

theorem stripTrailing_append (p l : List Char) (h : p.reverse.dropWhile isWsChar = p.reverse) :
    stripTrailing (p ++ l) = p ++ stripTrailing l := by
  unfold stripTrailing
  rw [List.reverse_append, dropWhile_append_my]
  by_cases hl : l.reverse.dropWhile isWsChar = []
  · rw [if_pos hl, h, hl]
    simp
  · rw [if_neg hl]
    simp

theorem pyStrip_append (p l : List Char) (h0 : p ≠ [])
    (h1 : p.dropWhile isWsChar = p) (h2 : p.reverse.dropWhile isWsChar = p.reverse) :
    pyStrip (p ++ l) = p ++ stripTrailing l := by
  unfold pyStrip stripLeading
  rw [dropWhile_append_my, if_neg (by rw [h1]; exact h0), h1]
  exact stripTrailing_append p l h2

theorem matchVector2_vec_tail (l : List Char) :
    matchVector2 ('V' :: 'e' :: 'c' :: 't' :: 'o' :: 'r' :: '2' :: '(' :: '1' :: ',' :: ' ' :: '2' :: ')'  :: l) =
      some (['1'], ['2']) := by
  rfl

theorem matchColor_vec_tail (l : List Char) :
    matchColor ('V' :: 'e' :: 'c' :: 't' :: 'o' :: 'r' :: '2' :: '(' :: '1' :: ',' :: ' ' :: '2' :: ')'  :: l) = none := by
  unfold matchColor
  simp +decide [expectChars]

theorem classify_vec_prefix (rec : List Char → Option Value) (l : List Char) :
    classifyStripped rec ("Vector2(1, 2)".data ++ l) = some (.vec2 1 2) := by
  have e : ("Vector2(1, 2)".data ++ l) =
      'V' :: 'e' :: 'c' :: 't' :: 'o' :: 'r' :: '2' :: '(' :: '1' :: ',' :: ' ' :: '2' :: ')'  :: l := by
    simp
  rw [e]
  unfold classifyStripped
  rw [matchColor_vec_tail, matchVector2_vec_tail]
  split
  · next h => exact absurd h (by simp)
  split
  · next h => exact absurd h (by simp)
  split
  · next h => rcases h with h | h <;> exact absurd h (by simp)
  rfl

theorem matchColor_color_tail (l : List Char) :
    matchColor ('C' :: 'o' :: 'l' :: 'o' :: 'r' :: '(' :: '1' :: ',' :: ' ' :: '2' :: ',' :: ' ' :: '3' :: ',' :: ' ' :: '4' :: ')'  :: l) =
      some (['1'], ['2'], ['3'], ['4']) := by
  rfl

theorem classify_color_prefix (rec : List Char → Option Value) (l : List Char) :
    classifyStripped rec ("Color(1, 2, 3, 4)".data ++ l) =
      some (.color 1 2 3 4) := by
  have e : ("Color(1, 2, 3, 4)".data ++ l) =
      'C' :: 'o' :: 'l' :: 'o' :: 'r' :: '(' :: '1' :: ',' :: ' ' :: '2' :: ',' :: ' ' :: '3' :: ',' :: ' ' :: '4' :: ')'  :: l := by
    simp
  rw [e]
  unfold classifyStripped
  rw [matchColor_color_tail]
  split
  · next h => exact absurd h (by simp)
  split
  · next h => exact absurd h (by simp)
  split
  · next h => rcases h with h | h <;> exact absurd h (by simp)
  rfl

/-- C10: the Color and Vector2 patterns are anchored only at the start of
the (stripped) input, so an input beginning with a well-formed Color or
Vector2 literal followed by arbitrary trailing text classifies to the value
built from the leading literal, silently ignoring the trailing text; in
particular `classify("Vector2(1, 2) extra")` yields `Vector2(1, 2)`. -/
theorem c10_anchored_trailing (t : String) :
    parse_value ("Vector2(1, 2)" ++ t) = some (.vec2 1 2) ∧
    parse_value ("Color(1, 2, 3, 4)" ++ t) = some (.color 1 2 3 4) ∧
    parse_value "Vector2(1, 2) extra" = some (.vec2 1 2) := by
  refine ⟨?_, ?_, rfl⟩
  · have e : parse_value ("Vector2(1, 2)" ++ t) =
        classifyStripped (parseValF ("Vector2(1, 2)" ++ t).data.length)
          (pyStrip ("Vector2(1, 2)" ++ t).data) := rfl
    rw [e, String.data_append,
      pyStrip_append "Vector2(1, 2)".data t.data (by decide) (by decide) (by decide)]
    exact classify_vec_prefix _ _
  · have e : parse_value ("Color(1, 2, 3, 4)" ++ t) =
        classifyStripped (parseValF ("Color(1, 2, 3, 4)" ++ t).data.length)
          (pyStrip ("Color(1, 2, 3, 4)" ++ t).data) := rfl
    rw [e, String.data_append,
      pyStrip_append "Color(1, 2, 3, 4)".data t.data (by decide) (by decide) (by decide)]
    exact classify_color_prefix _ _
